import Mathlib

/-!
Verification of the twisted structured-logging filter pipeline.

The filtering module itself (tri-state predicates, `FilteringLogObserver`,
`LogLevelFilterPredicate`, `LogPublisher`) is not present in the source tree;
only its test suite is. Those components are therefore modelled from the
specification document, and each such definition carries a doc comment
starting with "Modelled from the spec:". The stdlib bridge
(`STDLibLogObserver`, `StringifiableFromEvent`, `pythonLogLevelMapping`) is
translated from the source file `_stdlib.py`.
-/

/-- Modelled from the spec: the severity enumeration (external collaborator
`LogLevel` from the levels module), ordered debug < info < warn < error <
critical. -/
inductive LogLevel where
  | debug
  | info
  | warn
  | error
  | critical
deriving DecidableEq

/-- Modelled from the spec: the position of a level in the severity total
order debug < info < warn < error < critical. -/
def LogLevel.priority : LogLevel → Nat
  | .debug => 0
  | .info => 1
  | .warn => 2
  | .error => 3
  | .critical => 4

/-- Modelled from the spec: `PredicateResult`, a closed enumeration of exactly
three values: Yes (force-accept), No (force-reject), Maybe (abstain). -/
inductive PredicateResult where
  | yes
  | no
  | maybe
deriving DecidableEq

/-- Modelled from the spec: a log event. A mapping with reserved keys
`log_level` (a severity value, or absent/null), `log_namespace` (a string, or
absent/null), and the opt-in `log_trace` (an ordered sequence of
(source, destination) pairs, absent unless the caller supplies it).
Sources and destinations are identified by numeric observer identities.
The `count` field stands for the arbitrary further content an event may
carry. -/
structure Event where
  count : Nat := 0
  log_namespace : Option String := none
  log_level : Option LogLevel := none
  log_trace : Option (List (Nat × Nat)) := none

/-- The content of an event apart from its trace. -/
def Event.content (e : Event) : Nat × Option String × Option LogLevel :=
  (e.count, e.log_namespace, e.log_level)

/-- Modelled from the spec: appending one (source, destination) hop to an
event's trace sequence, when the event carries one; an event without a trace
is left untouched. -/
def appendTrace (e : Event) (hop : Nat × Nat) : Event :=
  match e.log_trace with
  | none => e
  | some t => { e with log_trace := some (t ++ [hop]) }

/-- Modelled from the spec: a predicate is a function from an event to a
predicate result. Since a Python callable may return anything, the result is
an `Option PredicateResult`: `some r` is a legal result, `none` stands for
any value outside {Yes, No, Maybe}. -/
def Pred : Type := Event → Option PredicateResult

/-- Modelled from the spec: the type error raised when a predicate returns a
value outside {Yes, No, Maybe}. -/
inductive PyTypeError where
  | invalidPredicateResult
deriving DecidableEq

/-- Modelled from the spec: `FilteringLogObserver.shouldLogEvent`. Iterate
predicates in configured order; No stops and rejects, Yes stops and accepts,
Maybe continues; exhaustion (including the empty sequence) accepts; a value
outside {Yes, No, Maybe} raises a type error at that point. -/
def shouldLogEvent : List Pred → Event → Except PyTypeError Bool
  | [], _ => .ok true
  | p :: ps, e =>
    match p e with
    | some .yes => .ok true
    | some .no => .ok false
    | some .maybe => shouldLogEvent ps e
    | none => .error .invalidPredicateResult

/-- The number of predicates the iteration of `shouldLogEvent` actually
evaluates: every leading Maybe plus the first non-Maybe result, if any. -/
def predicatesEvaluated : List Pred → Event → Nat
  | [], _ => 0
  | p :: ps, e =>
    match p e with
    | some .maybe => predicatesEvaluated ps e + 1
    | _ => 1

/-- The index of the first result other than Maybe when the predicates are
applied to the event in order (equal to the number of predicates when every
result is Maybe). -/
def firstDecisionIndex (preds : List Pred) (e : Event) : Nat :=
  ((preds.map fun p => p e).takeWhile fun r => r = some PredicateResult.maybe).length

/-- Modelled from the spec: `FilteringLogObserver`'s delivery operation. It
wraps one target observer (identified by `targetId`; the filter itself by
`selfId`). If `shouldLogEvent` accepts, the hop (self, target) is appended to
the event's trace (when it carries one) and the event is forwarded to the
target: the result `.ok (some e')` means the target was invoked with `e'`;
`.ok none` means the event was dropped and the target never invoked; an error
propagates the predicate type error. -/
def FilteringLogObserver.call (selfId targetId : Nat) (preds : List Pred)
    (e : Event) : Except PyTypeError (Option Event) :=
  match shouldLogEvent preds e with
  | .error t => .error t
  | .ok true => .ok (some (appendTrace e (selfId, targetId)))
  | .ok false => .ok none

/-- C1: `FilteringLogObserver` evaluates predicates in configured order up to
the first non-Maybe result; the event is forwarded to the target if and only
if that first non-Maybe result is Yes or every predicate (including the empty
sequence) returned Maybe; on a first No the event is dropped and the target
is never invoked; the number of predicates evaluated never exceeds one past
the leading run of Maybes. -/
theorem filteringLogObserver_call_spec (selfId targetId : Nat)
    (preds : List Pred) (e : Event) :
    ((∃ e', FilteringLogObserver.call selfId targetId preds e =
        Except.ok (some e')) ↔
      (firstDecisionIndex preds e = preds.length ∨
        (preds.map fun p => p e).get? (firstDecisionIndex preds e) =
          some (some PredicateResult.yes)))
    ∧ ((preds.map fun p => p e).get? (firstDecisionIndex preds e) =
          some (some PredicateResult.no) →
        FilteringLogObserver.call selfId targetId preds e = Except.ok none)
    ∧ predicatesEvaluated preds e =
        min (firstDecisionIndex preds e + 1) preds.length := by
  induction preds with
  | nil =>
    refine ⟨?_, ?_, ?_⟩
    · simp [FilteringLogObserver.call, shouldLogEvent, firstDecisionIndex]
    · simp [firstDecisionIndex]
    · simp [predicatesEvaluated, firstDecisionIndex]
  | cons p ps ih =>
    obtain ⟨ih1, ih2, ih3⟩ := ih
    match hp : p e with
    | some PredicateResult.maybe =>
      have hfdi : firstDecisionIndex (p :: ps) e = firstDecisionIndex ps e + 1 := by
        simp [firstDecisionIndex, hp, List.takeWhile]
      refine ⟨?_, ?_, ?_⟩
      · rw [hfdi]
        simp only [FilteringLogObserver.call, shouldLogEvent, hp,
          List.map_cons, List.length_cons, List.get?] at *
        constructor
        · intro h
          rcases ih1.mp h with h' | h'
          · exact Or.inl (by omega)
          · exact Or.inr h'
        · intro h
          rcases h with h' | h'
          · exact ih1.mpr (Or.inl (by omega))
          · exact ih1.mpr (Or.inr h')
      · rw [hfdi]
        simp only [FilteringLogObserver.call, shouldLogEvent, hp,
          List.map_cons, List.get?] at *
        exact ih2
      · rw [hfdi]
        simp only [predicatesEvaluated, hp, List.length_cons]
        omega
    | some PredicateResult.yes =>
      have hfdi : firstDecisionIndex (p :: ps) e = 0 := by
        simp [firstDecisionIndex, hp, List.takeWhile]
      refine ⟨?_, ?_, ?_⟩
      · rw [hfdi]
        simp [FilteringLogObserver.call, shouldLogEvent, hp]
      · rw [hfdi]
        simp [hp]
      · rw [hfdi]
        simp [predicatesEvaluated, hp]
    | some PredicateResult.no =>
      have hfdi : firstDecisionIndex (p :: ps) e = 0 := by
        simp [firstDecisionIndex, hp, List.takeWhile]
      refine ⟨?_, ?_, ?_⟩
      · rw [hfdi]
        simp [FilteringLogObserver.call, shouldLogEvent, hp]
      · rw [hfdi]
        simp [FilteringLogObserver.call, shouldLogEvent, hp]
      · rw [hfdi]
        simp [predicatesEvaluated, hp]
    | none =>
      have hfdi : firstDecisionIndex (p :: ps) e = 0 := by
        simp [firstDecisionIndex, hp, List.takeWhile]
      refine ⟨?_, ?_, ?_⟩
      · rw [hfdi]
        simp [FilteringLogObserver.call, shouldLogEvent, hp]
      · rw [hfdi]
        simp [hp]
      · rw [hfdi]
        simp [predicatesEvaluated, hp]

/-- Witness for C1: with predicates [Maybe, No] the first non-Maybe result is
the No at index 1, and the event is dropped. -/
theorem filteringLogObserver_call_spec_witness :
    FilteringLogObserver.call 0 1
      [fun _ => some PredicateResult.maybe, fun _ => some PredicateResult.no]
      {} = Except.ok none :=
  (filteringLogObserver_call_spec 0 1
    [fun _ => some PredicateResult.maybe, fun _ => some PredicateResult.no]
    {}).2.1 (by rfl)

/-- C5: if the first non-Maybe predicate result is a value outside
{Yes, No, Maybe}, delivery fails with a type error raised at the point of
that predicate's evaluation (exactly the leading Maybes plus that predicate
are evaluated, none after it), and the event is not forwarded to the
target. -/
theorem filteringLogObserver_badPredicate (selfId targetId : Nat)
    (preds : List Pred) (e : Event)
    (h : (preds.map fun p => p e).get? (firstDecisionIndex preds e) =
      some none) :
    FilteringLogObserver.call selfId targetId preds e =
      Except.error PyTypeError.invalidPredicateResult
    ∧ predicatesEvaluated preds e = firstDecisionIndex preds e + 1
    ∧ ∀ e', FilteringLogObserver.call selfId targetId preds e ≠
        Except.ok (some e') := by
  induction preds with
  | nil =>
    simp [firstDecisionIndex] at h
  | cons p ps ih =>
    match hp : p e with
    | some PredicateResult.maybe =>
      have hfdi : firstDecisionIndex (p :: ps) e = firstDecisionIndex ps e + 1 := by
        simp [firstDecisionIndex, hp, List.takeWhile]
      rw [hfdi] at h ⊢
      simp only [List.map_cons, List.get?] at h
      obtain ⟨h1, h2, h3⟩ := ih h
      refine ⟨?_, ?_, ?_⟩
      · simpa [FilteringLogObserver.call, shouldLogEvent, hp] using h1
      · simp only [predicatesEvaluated, hp]
        omega
      · intro e'
        simpa [FilteringLogObserver.call, shouldLogEvent, hp] using h3 e'
    | some PredicateResult.yes =>
      have hfdi : firstDecisionIndex (p :: ps) e = 0 := by
        simp [firstDecisionIndex, hp, List.takeWhile]
      rw [hfdi] at h
      simp [hp] at h
    | some PredicateResult.no =>
      have hfdi : firstDecisionIndex (p :: ps) e = 0 := by
        simp [firstDecisionIndex, hp, List.takeWhile]
      rw [hfdi] at h
      simp [hp] at h
    | none =>
      have hfdi : firstDecisionIndex (p :: ps) e = 0 := by
        simp [firstDecisionIndex, hp, List.takeWhile]
      rw [hfdi]
      refine ⟨?_, ?_, ?_⟩
      · simp [FilteringLogObserver.call, shouldLogEvent, hp]
      · simp [predicatesEvaluated, hp]
      · intro e'
        simp [FilteringLogObserver.call, shouldLogEvent, hp]

/-- Witness for C5: a predicate returning a value outside the enumeration,
reached after one Maybe, raises the type error. -/
theorem filteringLogObserver_badPredicate_witness :
    FilteringLogObserver.call 0 1
      [fun _ => some PredicateResult.maybe, fun _ => none] {} =
      Except.error PyTypeError.invalidPredicateResult :=
  (filteringLogObserver_badPredicate 0 1
    [fun _ => some PredicateResult.maybe, fun _ => none] {} (by rfl)).1

/-- Modelled from the spec: splitting a list of characters at every dot,
keeping empty segments (the behavior of Python str.split with a one-dot
separator); the empty input yields one empty segment. -/
def splitSegsChars : List Char → List String
  | [] => [""]
  | c :: rest =>
    if c = '.' then "" :: splitSegsChars rest
    else
      match splitSegsChars rest with
      | [] => [String.mk [c]]
      | seg :: segs => String.mk (c :: seg.data) :: segs

/-- Modelled from the spec: the dot-separated segments of a namespace
string. -/
def splitSegs (s : String) : List String :=
  splitSegsChars s.data

/-- Modelled from the spec: the joins of the nonempty initial runs of
segments, shortest first ("a" , "a.b", "a.b.c", ... for segments
[a, b, c, ...]). -/
def ascCandidates : List String → List String
  | [] => []
  | s :: rest => s :: (ascCandidates rest).map fun c => s ++ "." ++ c

/-- Modelled from the spec: the candidate namespaces consulted by the
hierarchical threshold lookup, from the full dotted namespace string toward
its root, obtained by repeatedly stripping the final dot-separated
segment. -/
def walkCandidates (segs : List String) : List String :=
  (ascCandidates segs).reverse

/-- Modelled from the spec: lookup in the namespace threshold table (a
mapping keyed by namespace strings, with the sentinel `none` key standing
for the root override). -/
def lookupLevel : List (Option String × LogLevel) → Option String → Option LogLevel
  | [], _ => none
  | (k, v) :: rest, key => if k = key then some v else lookupLevel rest key

/-- Modelled from the spec: the threshold of the first candidate namespace
with an explicit entry, if any. -/
def findLevel (levels : List (Option String × LogLevel)) :
    List String → Option LogLevel
  | [] => none
  | c :: cs =>
    match lookupLevel levels (some c) with
    | some v => some v
    | none => findLevel levels cs

/-- Modelled from the spec: `LogLevelFilterPredicate`, the namespace-to-
severity-threshold filter. Its state is the threshold table; the key `none`
is the root override, a key `some ns` the entry for the exact namespace
`ns`. -/
structure LogLevelFilterPredicate where
  levels : List (Option String × LogLevel) := []

/-- Modelled from the spec: the class-level default threshold. Its exact
value is an external constant not fixed by the core; `info` is used here and
the theorems refer to it only by name. -/
def LogLevelFilterPredicate.defaultLogLevel : LogLevel := .info

/-- Modelled from the spec: `logLevelForNamespace` (the `thresholdFor`
resolution). The root sentinel resolves to the root override or, failing
that, the class default; a namespace string is resolved by walking from the
full dotted string toward its root, repeatedly stripping the final
dot-separated segment, and returning the first exact match; with no match,
the root override if set, else the class default. -/
def LogLevelFilterPredicate.logLevelForNamespace
    (p : LogLevelFilterPredicate) : Option String → LogLevel
  | none =>
    (lookupLevel p.levels none).getD LogLevelFilterPredicate.defaultLogLevel
  | some s =>
    match findLevel p.levels (walkCandidates (splitSegs s)) with
    | some v => v
    | none =>
      (lookupLevel p.levels none).getD LogLevelFilterPredicate.defaultLogLevel

/-- Modelled from the spec: a value passed to threshold configuration where
a severity level is expected. Only `level` is a genuine member of the
severity enumeration; `name` is the string name of a level; `obj` stands for
any other object. -/
inductive LevelArg where
  | level (l : LogLevel)
  | name (s : String)
  | obj (n : Nat)
deriving DecidableEq

/-- Modelled from the spec: the invalid-level error raised when threshold
configuration is handed a value that is not a genuine member of the severity
enumeration. -/
structure InvalidLogLevelError where
  given : LevelArg
deriving DecidableEq

/-- Modelled from the spec: `setLogLevelForNamespace`. The level is
validated before the table is touched: a value that is not a genuine
severity member raises the invalid-level error and leaves the table
unchanged; a genuine level replaces the entry for that namespace. -/
def LogLevelFilterPredicate.setLogLevelForNamespace
    (p : LogLevelFilterPredicate) (ns : Option String) (v : LevelArg) :
    LogLevelFilterPredicate × Option InvalidLogLevelError :=
  match v with
  | .level l =>
    ({ levels := (ns, l) :: p.levels.filter fun kv => kv.1 ≠ ns }, none)
  | _ => (p, some ⟨v⟩)

/-- Modelled from the spec: `clearLogLevels` removes every entry including
the root override. -/
def LogLevelFilterPredicate.clearLogLevels
    (_ : LogLevelFilterPredicate) : LogLevelFilterPredicate :=
  { levels := [] }

/-- Modelled from the spec: the predicate contract of
`LogLevelFilterPredicate`. A missing namespace or missing level is rejected
with No regardless of the table; otherwise No exactly when the event's level
is strictly below the threshold resolved for its namespace, Maybe otherwise;
never Yes. -/
def LogLevelFilterPredicate.evaluate (p : LogLevelFilterPredicate)
    (e : Event) : PredicateResult :=
  match e.log_namespace, e.log_level with
  | some ns, some lvl =>
    if lvl.priority < (p.logLevelForNamespace (some ns)).priority then
      PredicateResult.no
    else
      PredicateResult.maybe
  | _, _ => PredicateResult.no

/-- The candidates produced by `ascCandidates` have strictly increasing
lengths: each further segment adds at least a dot. -/
theorem ascCandidates_pairwise (segs : List String) :
    (ascCandidates segs).Pairwise fun a b => a.length < b.length := by
  induction segs with
  | nil => simp [ascCandidates]
  | cons s rest ih =>
    have hdot : ("." : String).length = 1 := rfl
    simp only [ascCandidates]
    refine List.Pairwise.cons ?_ (ih.map _ ?_)
    · intro c hc
      obtain ⟨c0, _, rfl⟩ := List.mem_map.mp hc
      simp only [String.length_append, hdot]
      omega
    · intro a b h
      simp only [String.length_append, hdot]
      omega

/-- The walked candidates have strictly decreasing lengths. -/
theorem walkCandidates_pairwise (segs : List String) :
    (walkCandidates segs).Pairwise fun a b => b.length < a.length := by
  rw [walkCandidates, List.pairwise_reverse]
  exact ascCandidates_pairwise segs

/-- In a list with strictly decreasing lengths, two members of equal length
are equal. -/
theorem pairwise_length_eq {l : List String}
    (hl : l.Pairwise fun a b => b.length < a.length) :
    ∀ a ∈ l, ∀ b ∈ l, a.length = b.length → a = b := by
  induction l with
  | nil => simp
  | cons x xs ih =>
    intro a ha b hb hab
    rcases List.mem_cons.mp ha with rfl | ha' <;>
      rcases List.mem_cons.mp hb with rfl | hb'
    · rfl
    · have := (List.pairwise_cons.mp hl).1 b hb'
      omega
    · have := (List.pairwise_cons.mp hl).1 a ha'
      omega
    · exact ih (List.pairwise_cons.mp hl).2 a ha' b hb' hab

/-- If no candidate has an entry, the walk finds nothing. -/
theorem findLevel_eq_none (levels : List (Option String × LogLevel))
    (cs : List String) (h : ∀ c ∈ cs, lookupLevel levels (some c) = none) :
    findLevel levels cs = none := by
  induction cs with
  | nil => rfl
  | cons c cs ih =>
    have hc := h c (List.mem_cons_self c cs)
    simp only [findLevel, hc]
    exact ih fun c' hc' => h c' (List.mem_cons_of_mem _ hc')

/-- If the walk finds nothing, no candidate has an entry. -/
theorem lookupLevel_eq_none_of_findLevel
    (levels : List (Option String × LogLevel)) (cs : List String)
    (h : findLevel levels cs = none) :
    ∀ c ∈ cs, lookupLevel levels (some c) = none := by
  induction cs with
  | nil => simp
  | cons c cs ih =>
    intro c' hc'
    match hl : lookupLevel levels (some c) with
    | some w => simp [findLevel, hl] at h
    | none =>
      have h' : findLevel levels cs = none := by
        simpa [findLevel, hl] using h
      rcases List.mem_cons.mp hc' with rfl | hmem
      · exact hl
      · exact ih h' c' hmem

/-- When candidate lengths strictly decrease, the first candidate with an
entry is the longest one with an entry. -/
theorem findLevel_first (levels : List (Option String × LogLevel))
    (cs : List String) (hcs : cs.Pairwise fun a b => b.length < a.length)
    (v : LogLevel) (hv : findLevel levels cs = some v) :
    ∃ c ∈ cs, lookupLevel levels (some c) = some v ∧
      ∀ c' ∈ cs, lookupLevel levels (some c') ≠ none →
        c'.length ≤ c.length := by
  induction cs with
  | nil => simp [findLevel] at hv
  | cons c cs ih =>
    match hl : lookupLevel levels (some c) with
    | some w =>
      have hwv : w = v := by
        simpa [findLevel, hl] using hv
      subst hwv
      refine ⟨c, List.mem_cons_self c cs, hl, ?_⟩
      intro c' hc' _
      rcases List.mem_cons.mp hc' with rfl | hmem
      · exact le_refl _
      · have := (List.pairwise_cons.mp hcs).1 c' hmem
        omega
    | none =>
      have hv' : findLevel levels cs = some v := by
        simpa [findLevel, hl] using hv
      obtain ⟨c0, hc0, hl0, hmax⟩ := ih (List.pairwise_cons.mp hcs).2 hv'
      refine ⟨c0, List.mem_cons_of_mem _ hc0, hl0, ?_⟩
      intro c' hc' hne
      rcases List.mem_cons.mp hc' with rfl | hmem
      · exact absurd hl hne
      · exact hmax c' hmem hne

/-- C2: `logLevelForNamespace` returns the threshold of the longest
configured entry reached by repeatedly stripping the final dot-separated
segment of the namespace (the namespace itself included); when no such
candidate is configured it returns the root override if set, else the
class-level default. -/
theorem logLevelForNamespace_resolution (p : LogLevelFilterPredicate)
    (ns : String) :
    ((∀ c ∈ walkCandidates (splitSegs ns),
        lookupLevel p.levels (some c) = none) →
      p.logLevelForNamespace (some ns) =
        (lookupLevel p.levels none).getD
          LogLevelFilterPredicate.defaultLogLevel)
    ∧ (∀ k v, k ∈ walkCandidates (splitSegs ns) →
        lookupLevel p.levels (some k) = some v →
        (∀ k', k' ∈ walkCandidates (splitSegs ns) →
          lookupLevel p.levels (some k') ≠ none → k'.length ≤ k.length) →
        p.logLevelForNamespace (some ns) = v) := by
  constructor
  · intro h
    have hf := findLevel_eq_none p.levels _ h
    simp [LogLevelFilterPredicate.logLevelForNamespace, hf]
  · intro k v hk hkv hmax
    match hf : findLevel p.levels (walkCandidates (splitSegs ns)) with
    | none =>
      have := lookupLevel_eq_none_of_findLevel p.levels _ hf k hk
      rw [this] at hkv
      exact absurd hkv (by simp)
    | some w =>
      obtain ⟨c0, hc0, hl0, hmax0⟩ :=
        findLevel_first p.levels _ (walkCandidates_pairwise _) w hf
      have hlen : c0.length = k.length := by
        have h1 : c0.length ≤ k.length := hmax c0 hc0 (by simp [hl0])
        have h2 : k.length ≤ c0.length := hmax0 k hk (by simp [hkv])
        omega
      have hck : c0 = k :=
        pairwise_length_eq (walkCandidates_pairwise _) c0 hc0 k hk hlen
      subst hck
      rw [hl0] at hkv
      have hwv : w = v := by injection hkv
      subst hwv
      simp [LogLevelFilterPredicate.logLevelForNamespace, hf]

/-- Witness for C2: in the table {root: error, twext.web2: debug,
twext.web2.dav: warn}, the namespace twext.web2.dav.test resolves via its
longest configured whole-segment ancestor, twext.web2.dav. -/
theorem logLevelForNamespace_resolution_witness :
    LogLevelFilterPredicate.logLevelForNamespace
      ⟨[(none, .error), (some "twext.web2", .debug),
        (some "twext.web2.dav", .warn)]⟩ (some "twext.web2.dav.test") =
      LogLevel.warn :=
  (logLevelForNamespace_resolution
    ⟨[(none, .error), (some "twext.web2", .debug),
      (some "twext.web2.dav", .warn)]⟩ "twext.web2.dav.test").2
    "twext.web2.dav" LogLevel.warn (by decide) (by decide) (by decide)

/-- C3: the namespace-level predicate rejects every event with a missing
namespace or missing level regardless of the table; otherwise it returns No
exactly when the event's level is strictly below the threshold resolved for
its namespace and Maybe otherwise; it never returns Yes. -/
theorem logLevelFilterPredicate_evaluate_spec (p : LogLevelFilterPredicate)
    (e : Event) :
    (p.evaluate e ≠ PredicateResult.yes)
    ∧ ((e.log_namespace = none ∨ e.log_level = none) →
        p.evaluate e = PredicateResult.no)
    ∧ (∀ ns lvl, e.log_namespace = some ns → e.log_level = some lvl →
        ((p.evaluate e = PredicateResult.no ↔
            lvl.priority < (p.logLevelForNamespace (some ns)).priority)
          ∧ (p.evaluate e = PredicateResult.maybe ↔
            ¬ lvl.priority <
              (p.logLevelForNamespace (some ns)).priority))) := by
  match hns : e.log_namespace, hlv : e.log_level with
  | none, none =>
    refine ⟨by simp [LogLevelFilterPredicate.evaluate, hns, hlv], ?_, ?_⟩
    · intro _
      simp [LogLevelFilterPredicate.evaluate, hns, hlv]
    · intro ns lvl h _
      simp [hns] at h
  | none, some lvl =>
    refine ⟨by simp [LogLevelFilterPredicate.evaluate, hns, hlv], ?_, ?_⟩
    · intro _
      simp [LogLevelFilterPredicate.evaluate, hns, hlv]
    · intro ns lvl' h _
      simp [hns] at h
  | some ns, none =>
    refine ⟨by simp [LogLevelFilterPredicate.evaluate, hns, hlv], ?_, ?_⟩
    · intro _
      simp [LogLevelFilterPredicate.evaluate, hns, hlv]
    · intro ns' lvl h h'
      simp [hlv] at h'
  | some ns, some lvl =>
    by_cases hlt :
        lvl.priority < (p.logLevelForNamespace (some ns)).priority
    · refine ⟨?_, ?_, ?_⟩
      · simp [LogLevelFilterPredicate.evaluate, hns, hlv, hlt]
      · intro h
        simp [hns, hlv] at h
      · intro ns' lvl' h h'
        injection h with h
        injection h' with h'
        subst h
        subst h'
        simp [LogLevelFilterPredicate.evaluate, hns, hlv, hlt]
    · refine ⟨?_, ?_, ?_⟩
      · simp [LogLevelFilterPredicate.evaluate, hns, hlv, hlt]
      · intro h
        simp [hns, hlv] at h
      · intro ns' lvl' h h'
        injection h with h
        injection h' with h'
        subst h
        subst h'
        simp [LogLevelFilterPredicate.evaluate, hns, hlv, hlt]

/-- Witness for C3: with threshold warn configured for twext.web2.dav, a
debug event in that namespace is vetoed. -/
theorem logLevelFilterPredicate_evaluate_spec_witness :
    LogLevelFilterPredicate.evaluate
      ⟨[(none, .error), (some "twext.web2", .debug),
        (some "twext.web2.dav", .warn)]⟩
      { log_namespace := some "twext.web2.dav",
        log_level := some LogLevel.debug } = PredicateResult.no :=
  (((logLevelFilterPredicate_evaluate_spec
      ⟨[(none, .error), (some "twext.web2", .debug),
        (some "twext.web2.dav", .warn)]⟩
      { log_namespace := some "twext.web2.dav",
        log_level := some LogLevel.debug }).2.2
    "twext.web2.dav" LogLevel.debug rfl rfl).1).mpr (by decide)

/-- C6: a value that is not a genuine member of the severity enumeration is
rejected by `setLogLevelForNamespace` with the invalid-level error, and the
threshold table is left unchanged: every subsequent resolution is the same
as before the failed call. -/
theorem setLogLevelForNamespace_invalid (p : LogLevelFilterPredicate)
    (ns : Option String) (v : LevelArg)
    (hv : ∀ l, v ≠ LevelArg.level l) :
    (p.setLogLevelForNamespace ns v).2 = some ⟨v⟩
    ∧ ∀ ns', (p.setLogLevelForNamespace ns v).1.logLevelForNamespace ns' =
        p.logLevelForNamespace ns' := by
  match v with
  | .level l => exact absurd rfl (hv l)
  | .name s => exact ⟨rfl, fun _ => rfl⟩
  | .obj n => exact ⟨rfl, fun _ => rfl⟩

/-- Witness for C6: passing the string name of a level instead of the level
itself is rejected. -/
theorem setLogLevelForNamespace_invalid_witness :
    (LogLevelFilterPredicate.setLogLevelForNamespace ⟨[]⟩
      (some "twext.web2") (LevelArg.name "debug")).2 =
      some ⟨LevelArg.name "debug"⟩ :=
  (setLogLevelForNamespace_invalid ⟨[]⟩ (some "twext.web2")
    (LevelArg.name "debug") (fun _ h => LevelArg.noConfusion h)).1

/-- C7: after `clearLogLevels`, every namespace — the root sentinel and
every string at any depth, configured before or not — resolves to the
class-level default threshold. -/
theorem clearLogLevels_default (p : LogLevelFilterPredicate)
    (ns : Option String) :
    (p.clearLogLevels).logLevelForNamespace ns =
      LogLevelFilterPredicate.defaultLogLevel := by
  match ns with
  | none => rfl
  | some s =>
    have h : findLevel ([] : List (Option String × LogLevel))
        (walkCandidates (splitSegs s)) = none :=
      findLevel_eq_none _ _ fun _ _ => rfl
    simp [LogLevelFilterPredicate.clearLogLevels,
      LogLevelFilterPredicate.logLevelForNamespace, h, lookupLevel]

/-- Modelled from the spec: the observer graph. A sink is a terminal
observer; a filter wraps one target with an ordered predicate list (a
`FilteringLogObserver`); a publisher fans out to an ordered list of
observers (a `LogPublisher`). Each node carries a numeric identity used in
trace entries. -/
inductive Obs where
  | sink (i : Nat)
  | filter (i : Nat) (preds : List Pred) (target : Obs)
  | publisher (i : Nat) (children : List Obs)

/-- The identity of an observer node. -/
def Obs.ident : Obs → Nat
  | .sink i => i
  | .filter i _ _ => i
  | .publisher i _ => i

mutual

/-- Modelled from the spec: synchronous dispatch. A sink consumes the event;
a filter consults `shouldLogEvent` and, on acceptance, appends the
(self, target) hop to the trace and invokes the target, while on rejection
the target is never invoked and nothing is appended; a publisher invokes
each child in order, appending the (publisher, child) hop immediately before
each invocation. The returned event carries the accumulated trace. -/
def Obs.run : Obs → Event → Except PyTypeError Event
  | .sink _, e => .ok e
  | .filter i ps tgt, e =>
    match shouldLogEvent ps e with
    | .error t => .error t
    | .ok true => Obs.run tgt (appendTrace e (i, tgt.ident))
    | .ok false => .ok e
  | .publisher i cs, e => Obs.runList i cs e
termination_by o _ => sizeOf o

/-- Modelled from the spec: a publisher's left-to-right dispatch over its
children. -/
def Obs.runList (i : Nat) : List Obs → Event → Except PyTypeError Event
  | [], e => .ok e
  | c :: cs, e =>
    match Obs.run c (appendTrace e (i, c.ident)) with
    | .error t => .error t
    | .ok e' => Obs.runList i cs e'
termination_by cs _ => sizeOf cs

end

/-- A publisher child of the shape exercised by the trace scenario: a
terminal sink, or a filter wrapping a terminal sink. -/
def Obs.flat : Obs → Prop
  | .sink _ => True
  | .filter _ _ (.sink _) => True
  | _ => False

/-- The node's predicates depend only on event content, never on the trace
the event has accumulated. -/
def Obs.contentOnly : Obs → Prop
  | .filter _ ps _ =>
    ∀ p ∈ ps, ∀ e1 e2 : Event, e1.content = e2.content → p e1 = p e2
  | _ => True

/-- No predicate of the node returns a value outside the enumeration on the
given event. -/
def Obs.validOn (e : Event) : Obs → Prop
  | .filter _ ps _ => ∀ p ∈ ps, p e ≠ none
  | _ => True

/-- The trace entries contributed by dispatching one publisher child: the
(publisher, child) hop, plus the (filter, target) hop exactly when the child
is a filter that forwards; a drop contributes no further entry. -/
def traceContrib (pubId : Nat) (e : Event) : Obs → List (Nat × Nat)
  | .sink i => [(pubId, i)]
  | .filter i ps tgt =>
    match shouldLogEvent ps e with
    | .ok true => [(pubId, i), (i, tgt.ident)]
    | _ => [(pubId, i)]
  | .publisher i _ => [(pubId, i)]

/-- The trace entries contributed by a whole child list, in traversal
order. -/
def hopsAll (pubId : Nat) (e : Event) : List Obs → List (Nat × Nat)
  | [] => []
  | c :: cs => traceContrib pubId e c ++ hopsAll pubId e cs

/-- Appending a trace hop never changes event content. -/
theorem content_appendTrace (e : Event) (hop : Nat × Nat) :
    (appendTrace e hop).content = e.content := by
  cases h : e.log_trace <;> simp [appendTrace, h, Event.content]

/-- Appending a hop to an event carrying a trace extends the trace by that
hop. -/
theorem log_trace_appendTrace (e : Event) (t : List (Nat × Nat))
    (hop : Nat × Nat) (h : e.log_trace = some t) :
    (appendTrace e hop).log_trace = some (t ++ [hop]) := by
  simp [appendTrace, h]

/-- `shouldLogEvent` only looks at the event through its predicates. -/
theorem shouldLogEvent_congr (ps : List Pred) (e1 e2 : Event)
    (h : ∀ p ∈ ps, p e1 = p e2) :
    shouldLogEvent ps e1 = shouldLogEvent ps e2 := by
  induction ps with
  | nil => rfl
  | cons p ps ih =>
    have hp := h p (List.mem_cons_self p ps)
    simp only [shouldLogEvent, hp]
    cases hr : p e2 with
    | none => rfl
    | some r =>
      cases r with
      | yes => rfl
      | no => rfl
      | maybe => exact ih fun q hq => h q (List.mem_cons_of_mem _ hq)

/-- When no predicate returns a value outside the enumeration, the decision
succeeds. -/
theorem shouldLogEvent_ok (ps : List Pred) (e : Event)
    (h : ∀ p ∈ ps, p e ≠ none) :
    ∃ b, shouldLogEvent ps e = .ok b := by
  induction ps with
  | nil => exact ⟨true, rfl⟩
  | cons p ps ih =>
    match hp : p e with
    | some PredicateResult.yes => exact ⟨true, by simp [shouldLogEvent, hp]⟩
    | some PredicateResult.no => exact ⟨false, by simp [shouldLogEvent, hp]⟩
    | some PredicateResult.maybe =>
      obtain ⟨b, hb⟩ := ih fun q hq => h q (List.mem_cons_of_mem _ hq)
      exact ⟨b, by simp [shouldLogEvent, hp, hb]⟩
    | none => exact absurd hp (h p (List.mem_cons_self p ps))

/-- Dispatching one flat publisher child appends exactly its contribution to
the trace and preserves content. -/
theorem run_flat_child (pubId : Nat) (c : Obs) (e ev : Event)
    (t : List (Nat × Nat)) (hflat : c.flat) (hco : c.contentOnly)
    (hval : c.validOn e) (hcontent : ev.content = e.content)
    (ht : ev.log_trace = some t) :
    ∃ e', Obs.run c (appendTrace ev (pubId, c.ident)) = .ok e'
      ∧ e'.content = e.content
      ∧ e'.log_trace = some (t ++ traceContrib pubId e c) := by
  match c with
  | .sink i =>
    refine ⟨appendTrace ev (pubId, i), by simp [Obs.run, Obs.ident], ?_, ?_⟩
    · rw [content_appendTrace]
      exact hcontent
    · rw [log_trace_appendTrace ev t _ ht]
      simp [traceContrib]
  | .filter i ps tgt =>
    match tgt with
    | .sink s =>
      simp only [Obs.contentOnly] at hco
      simp only [Obs.validOn] at hval
      have hev'c : (appendTrace ev (pubId, i)).content = e.content := by
        rw [content_appendTrace]; exact hcontent
      have hev't : (appendTrace ev (pubId, i)).log_trace =
          some (t ++ [(pubId, i)]) := log_trace_appendTrace ev t _ ht
      have hcongr : shouldLogEvent ps (appendTrace ev (pubId, i)) =
          shouldLogEvent ps e :=
        shouldLogEvent_congr ps _ e fun p hp => hco p hp _ e hev'c
      obtain ⟨b, hb⟩ := shouldLogEvent_ok ps e hval
      cases b with
      | true =>
        refine ⟨appendTrace (appendTrace ev (pubId, i)) (i, s), ?_, ?_, ?_⟩
        · simp [Obs.run, Obs.ident, hcongr, hb]
        · rw [content_appendTrace]
          exact hev'c
        · rw [log_trace_appendTrace _ _ _ hev't]
          simp [traceContrib, hb, Obs.ident]
      | false =>
        refine ⟨appendTrace ev (pubId, i), ?_, hev'c, ?_⟩
        · simp [Obs.run, Obs.ident, hcongr, hb]
        · rw [hev't]
          simp [traceContrib, hb]
    | .filter j qs tgt' => exact hflat.elim
    | .publisher j cs => exact hflat.elim
  | .publisher i cs => exact hflat.elim

/-- A publisher's dispatch over flat children, from any starting trace. -/
theorem runList_trace (pubId : Nat) (cs : List Obs) (e : Event)
    (hc : ∀ c ∈ cs, c.flat ∧ c.contentOnly ∧ c.validOn e) :
    ∀ ev t, ev.content = e.content → ev.log_trace = some t →
      ∃ e', Obs.runList pubId cs ev = .ok e'
        ∧ e'.content = e.content
        ∧ e'.log_trace = some (t ++ hopsAll pubId e cs) := by
  induction cs with
  | nil =>
    intro ev t hcont htr
    refine ⟨ev, by simp [Obs.runList], hcont, ?_⟩
    rw [htr]
    simp [hopsAll]
  | cons c cs ih =>
    intro ev t hcont htr
    obtain ⟨hflat, hco, hval⟩ := hc c (List.mem_cons_self c cs)
    obtain ⟨e1, hrun, he1c, he1t⟩ :=
      run_flat_child pubId c e ev t hflat hco hval hcont htr
    obtain ⟨e', hrl, he'c, he't⟩ :=
      ih (fun c' h' => hc c' (List.mem_cons_of_mem _ h')) e1
        (t ++ traceContrib pubId e c) he1c he1t
    refine ⟨e', ?_, he'c, ?_⟩
    · simp [Obs.runList, hrun, hrl]
    · rw [he't]
      simp [hopsAll, List.append_assoc]

/-- C4: dispatching a traced event through a publisher appends, for each
child in traversal order, the (publisher, child) hop before invoking it,
plus exactly one further (filter, target) hop when the child is a filter
that forwards, and no further hop when it drops; event content is
unchanged. -/
theorem publisher_trace (pubId : Nat) (cs : List Obs) (e : Event)
    (t0 : List (Nat × Nat)) (ht : e.log_trace = some t0)
    (hc : ∀ c ∈ cs, c.flat ∧ c.contentOnly ∧ c.validOn e) :
    ∃ e', Obs.run (.publisher pubId cs) e = .ok e'
      ∧ e'.content = e.content
      ∧ e'.log_trace = some (t0 ++ hopsAll pubId e cs) := by
  have h := runList_trace pubId cs e hc e t0 rfl ht
  simpa [Obs.run] using h

/-- Witness for C4, the spec's trace scenario: a publisher over an
always-Yes filter, an always-No filter and a plain sink yields the trace
[(publisher, filterA), (filterA, sinkYes), (publisher, filterB),
(publisher, sinkC)]. -/
theorem publisher_trace_witness :
    ∃ e', Obs.run (Obs.publisher 0
        [Obs.filter 1 [fun _ => some PredicateResult.yes] (Obs.sink 2),
         Obs.filter 3 [fun _ => some PredicateResult.no] (Obs.sink 4),
         Obs.sink 5]) { log_trace := some [] } = .ok e'
      ∧ e'.log_trace = some [(0, 1), (1, 2), (0, 3), (0, 5)] := by
  have h := publisher_trace 0
    [Obs.filter 1 [fun _ => some PredicateResult.yes] (Obs.sink 2),
     Obs.filter 3 [fun _ => some PredicateResult.no] (Obs.sink 4),
     Obs.sink 5] { log_trace := some [] } [] rfl ?_
  · obtain ⟨e', h1, _, h3⟩ := h
    refine ⟨e', h1, ?_⟩
    rw [h3]
    simp [hopsAll, traceContrib, shouldLogEvent, Obs.ident]
  · intro c hc
    simp only [List.mem_cons, List.not_mem_nil, or_false] at hc
    rcases hc with rfl | rfl | rfl
    · refine ⟨trivial, ?_, ?_⟩
      · intro p hp e1 e2 _
        simp only [List.mem_singleton] at hp
        subst hp
        rfl
      · intro p hp
        simp only [List.mem_singleton] at hp
        subst hp
        simp
    · refine ⟨trivial, ?_, ?_⟩
      · intro p hp e1 e2 _
        simp only [List.mem_singleton] at hp
        subst hp
        rfl
      · intro p hp
        simp only [List.mem_singleton] at hp
        subst hp
        simp
    · exact ⟨trivial, trivial, trivial⟩

/-- An event as seen by the stdlib bridge: the reserved `log_level` key may
hold any value (a genuine severity level, the string name of a level, or an
arbitrary object) or be absent; `log_format` stands for the content the
formatting function renders. -/
structure StdlibEvent where
  log_level : Option LevelArg := none
  log_format : String := ""
deriving DecidableEq

namespace stdlibLogging

/-- The numeric DEBUG severity of Python's logging module. -/
def DEBUG : Nat := 10

/-- The numeric INFO severity of Python's logging module. -/
def INFO : Nat := 20

/-- The numeric WARNING severity of Python's logging module. -/
def WARNING : Nat := 30

/-- The numeric ERROR severity of Python's logging module. -/
def ERROR : Nat := 40

/-- The numeric CRITICAL severity of Python's logging module. -/
def CRITICAL : Nat := 50

end stdlibLogging

/-- From `_stdlib.py`: the mapping from twisted severity levels to Python's
logging scale. -/
def pythonLogLevelMapping : List (LevelArg × Nat) :=
  [(.level .debug, stdlibLogging.DEBUG),
   (.level .info, stdlibLogging.INFO),
   (.level .warn, stdlibLogging.WARNING),
   (.level .error, stdlibLogging.ERROR),
   (.level .critical, stdlibLogging.CRITICAL)]

/-- Python dict.get with a default value. -/
def dictGetD (m : List (LevelArg × Nat)) (k : LevelArg) (d : Nat) : Nat :=
  match m with
  | [] => d
  | (k', v) :: rest => if k' = k then v else dictGetD rest k d

/-- Modelled from the spec: the external event-to-string formatting function
(`formatEvent` from the format module, an external collaborator): rendering
an event produces its formatted text. -/
def formatEvent (e : StdlibEvent) : String := e.log_format

/-- From `_stdlib.py`: `StringifiableFromEvent` stores only a reference to
the event; no formatted text is computed or cached at construction. -/
structure StringifiableFromEvent where
  event : StdlibEvent
deriving DecidableEq

/-- From `_stdlib.py`: `StringifiableFromEvent.__init__` captures the event.
The formatting-call counter is threaded explicitly through the model to make
laziness observable; construction leaves it unchanged. -/
def StringifiableFromEvent.init (e : StdlibEvent) (calls : Nat) :
    StringifiableFromEvent × Nat :=
  ({ event := e }, calls)

/-- From `_stdlib.py`: `StringifiableFromEvent.__str__` invokes the
formatting function on the captured event each time it is called; one
formatting invocation is counted per call. -/
def StringifiableFromEvent.str (s : StringifiableFromEvent) (calls : Nat) :
    String × Nat :=
  (formatEvent s.event, calls + 1)

/-- From `_stdlib.py`: `STDLibLogObserver.__call__` maps the event's level
(absent defaults to info; values outside the mapping fall back to INFO)
through `pythonLogLevelMapping` and hands the stdlib logger the deferred
stringification value without converting it to text, so the formatting-call
counter is unchanged. Returns ((stdlib severity, deferred value), calls). -/
def STDLibLogObserver.call (e : StdlibEvent) (calls : Nat) :
    (Nat × StringifiableFromEvent) × Nat :=
  ((dictGetD pythonLogLevelMapping (e.log_level.getD (.level .info))
      stdlibLogging.INFO, { event := e }), calls)

/-- C8: the severity handed to the stdlib sink is the image of the event's
level under the fixed table debug→DEBUG, info→INFO, warn→WARNING,
error→ERROR, critical→CRITICAL; an event whose level is absent or not a
genuine member of the severity enumeration is passed with INFO. -/
theorem stdlibLogObserver_levelMapping (e : StdlibEvent) (n : Nat) :
    (∀ l, e.log_level = some (.level l) →
      (STDLibLogObserver.call e n).1.1 =
        match l with
        | .debug => stdlibLogging.DEBUG
        | .info => stdlibLogging.INFO
        | .warn => stdlibLogging.WARNING
        | .error => stdlibLogging.ERROR
        | .critical => stdlibLogging.CRITICAL)
    ∧ (e.log_level = none →
        (STDLibLogObserver.call e n).1.1 = stdlibLogging.INFO)
    ∧ (∀ v, e.log_level = some v → (∀ l, v ≠ LevelArg.level l) →
        (STDLibLogObserver.call e n).1.1 = stdlibLogging.INFO) := by
  refine ⟨?_, ?_, ?_⟩
  · intro l hl
    cases l <;>
      simp [STDLibLogObserver.call, hl, dictGetD, pythonLogLevelMapping]
  · intro hl
    simp [STDLibLogObserver.call, hl, dictGetD, pythonLogLevelMapping]
  · intro v hv hnl
    match v with
    | .level l => exact absurd rfl (hnl l)
    | .name s =>
      simp [STDLibLogObserver.call, hv, dictGetD, pythonLogLevelMapping]
    | .obj k =>
      simp [STDLibLogObserver.call, hv, dictGetD, pythonLogLevelMapping]

/-- Witness for C8: a genuine error level maps to ERROR; an arbitrary object
in the level slot falls back to INFO. -/
theorem stdlibLogObserver_levelMapping_witness :
    (STDLibLogObserver.call { log_level := some (.level .error) } 0).1.1 =
      stdlibLogging.ERROR
    ∧ (STDLibLogObserver.call { log_level := some (.obj 7) } 0).1.1 =
      stdlibLogging.INFO :=
  ⟨(stdlibLogObserver_levelMapping { log_level := some (.level .error) } 0).1
      LogLevel.error rfl,
   (stdlibLogObserver_levelMapping { log_level := some (.obj 7) } 0).2.2
      (LevelArg.obj 7) rfl fun _ h => LevelArg.noConfusion h⟩

/-- Counterexample for C9: converting the same deferred value to text twice
invokes the formatting function twice — the formatted string is not cached,
so it is not computed "at most once". -/
theorem stringifiableFromEvent_recomputes :
    ¬((StringifiableFromEvent.str { event := { log_format := "msg" } }
        ((StringifiableFromEvent.str { event := { log_format := "msg" } }
          0).2)).2 ≤ 1) := by
  decide

/-- C9 (amended): the deferred value captures a reference to the event and
invokes the formatting function neither at construction nor at delivery; it
is invoked exactly once per text conversion (yielding the formatted event),
hence never if the value is never converted — but it is recomputed, not
cached, on every later conversion. -/
theorem stringifiableFromEvent_lazy (e : StdlibEvent) (n : Nat) :
    StringifiableFromEvent.init e n = ({ event := e }, n)
    ∧ (STDLibLogObserver.call e n).2 = n
    ∧ (STDLibLogObserver.call e n).1.2 = { event := e }
    ∧ ∀ s : StringifiableFromEvent,
        s.str n = (formatEvent s.event, n + 1) :=
  ⟨rfl, rfl, rfl, fun _ => rfl⟩

/-- A stack frame as seen by caller attribution: source file, line number,
function name. -/
structure Frame where
  filename : String
  lineno : Nat
  funcName : String
deriving DecidableEq

/-- Modelled from the spec: `currentframe(n)` from the compatibility module
walks the call stack upward by the given number of frames; the stack is
passed explicitly, innermost frame first. -/
def currentframe (stack : List Frame) (n : Nat) : Option Frame :=
  stack.get? n

/-- From `_stdlib.py`: the observer's `_findCaller`. The `stack_info`
argument is accepted and ignored; the frame is resolved purely from the
configured stack depth, returning (filename, line number, function name)
plus the trailing `None` of the Python-3 tuple shape. -/
def STDLibLogObserver.findCaller (stackDepth : Nat) (stack : List Frame)
    (_stack_info : Bool) : Option (String × Nat × String × Option Unit) :=
  (currentframe stack stackDepth).map fun f =>
    (f.filename, f.lineno, f.funcName, none)

/-- The findCaller implementation a stdlib logger currently carries: its
stdlib default, or the replacement installed by an observer (identified by
the observer and its configured stack depth). -/
inductive FindCallerImpl where
  | stdlibDefault
  | observerImpl (observerId : Nat) (stackDepth : Nat)
deriving DecidableEq

/-- The state of one shared stdlib logger: which findCaller it carries. -/
structure PyLogger where
  findCallerImpl : FindCallerImpl
deriving DecidableEq

/-- Lookup of the shared logger registered under a name (Python
`logging.getLogger` returns one shared logger per name). -/
def lookupLogger : List (String × PyLogger) → String → Option PyLogger
  | [], _ => none
  | (k, v) :: rest, name => if k = name then some v else lookupLogger rest name

/-- From `_stdlib.py`: the observer state constructed by `__init__`. -/
structure STDLibLogObserver where
  loggerName : String
  stackDepth : Nat
deriving DecidableEq

/-- From `_stdlib.py`: the class default stack depth. -/
def STDLibLogObserver.defaultStackDepth : Nat := 4

/-- From `_stdlib.py`: the default logger name. -/
def STDLibLogObserver.defaultLoggerName : String := "twisted"

/-- From `_stdlib.py`: `STDLibLogObserver.__init__` fetches the shared
stdlib logger for the name and replaces its findCaller with the observer's
own, mutating the shared registry; whatever findCaller the logger carried
before — its stdlib default or another observer's — is overwritten. -/
def STDLibLogObserver.init (reg : List (String × PyLogger))
    (observerId : Nat) (name : String) (stackDepth : Nat) :
    STDLibLogObserver × List (String × PyLogger) :=
  (⟨name, stackDepth⟩,
    (name, ⟨.observerImpl observerId stackDepth⟩) ::
      reg.filter fun kv => kv.1 ≠ name)

/-- C10: constructing an observer installs its own findCaller on the shared
logger of its name; a second construction with the same name silently
overrides the first's; findCaller ignores its stack_info argument and
resolves the (filename, line, function) attribution purely from the
configured stack depth; the defaults are logger name "twisted" and stack
depth 4. -/
theorem stdlibLogObserver_init_findCaller (reg : List (String × PyLogger))
    (name : String) (id1 d1 id2 d2 : Nat) (stack : List Frame)
    (b1 b2 : Bool) (d : Nat) :
    lookupLogger (STDLibLogObserver.init reg id1 name d1).2 name =
      some ⟨.observerImpl id1 d1⟩
    ∧ lookupLogger
        (STDLibLogObserver.init (STDLibLogObserver.init reg id1 name d1).2
          id2 name d2).2 name = some ⟨.observerImpl id2 d2⟩
    ∧ STDLibLogObserver.findCaller d stack b1 =
        STDLibLogObserver.findCaller d stack b2
    ∧ STDLibLogObserver.findCaller d stack b1 =
        (currentframe stack d).map
          (fun f => (f.filename, f.lineno, f.funcName, none))
    ∧ STDLibLogObserver.defaultStackDepth = 4
    ∧ STDLibLogObserver.defaultLoggerName = "twisted" := by
  refine ⟨?_, ?_, rfl, rfl, rfl, rfl⟩
  · simp [STDLibLogObserver.init, lookupLogger]
  · simp [STDLibLogObserver.init, lookupLogger]
